import Mathlib

/-!
Shallow embedding of the pipeline program in `src/main.py`.

The program consists of:
* a pipeline engine: `pipeline()` returns `add_step` (a decorator that
  registers a step function under a name into an insertion-ordered dict) and
  `execute` (a generator that threads a payload through the registered steps
  in registration order, yielding `True` per successful step and a single
  `False` — then stopping — when a step returns `None`);
* global state: `audit_log` (a list of entries), `data_store` (a dict from
  id to record) and a fixed read-only `roles` table;
* three example steps `validate_user`, `get_data`, `delete_data` registered
  under the names "validation", "get_data", "delete_data".

Modelling choices:
* Python dicts are association lists with first-match lookup; assignment to
  an existing key replaces the value in place (preserving insertion order),
  assignment to a fresh key appends — exactly the CPython dict behaviour the
  program relies on.
* Payload values are strings (all payloads in the program map field names to
  strings); record values are strings or integers, modelled by `Value`.
* A step is a function from payload and global state to a new global state
  together with either a raised exception (`Except.error`, modelling Python
  `KeyError`) or an optional payload (`none` models the Python `None`
  failure marker).
* The wall-clock timestamp prepended by `log_action` is abstracted away: an
  audit entry is the pair (user id, action text).  Console `print` calls are
  presentation only and are not modelled.
* The generator returned by `execute` is modelled twice: `execute` runs the
  generator to exhaustion (the list of yielded booleans, the final state,
  and the exception, if one escapes), and `pullN n` models pulling at most
  `n` elements from the generator, capturing the lazy consumption model.
-/

namespace ProjectAuth

/-- A value stored in a record of the data store: Python strings or ints. -/
inductive Value where
  | str : String → Value
  | int : Int → Value
deriving DecidableEq, Repr

/-- A request payload: a Python dict from field name to string. -/
abbrev Payload := List (String × String)

/-- A record of the data store: a Python dict from field name to value. -/
abbrev Record := List (String × Value)

/-- Python `d[k]` / `d.get(k)` lookup: first entry with key `k`, if any. -/
def dictGet {α : Type} (d : List (String × α)) (k : String) : Option α :=
  (d.find? (fun p => p.1 == k)).map (fun p => p.2)

/-- Python `d[k] = v`: replace the value of an existing key in place
(preserving insertion order), otherwise append a fresh entry. -/
def dictSet {α : Type} (d : List (String × α)) (k : String) (v : α) :
    List (String × α) :=
  if d.any (fun p => p.1 == k) then
    d.map (fun p => if p.1 == k then (k, v) else p)
  else d ++ [(k, v)]

/-- A Python exception escaping a step; the program can only raise
`KeyError` (subscripting a dict with a missing key). -/
inductive Err where
  | keyError (key : String)
deriving DecidableEq, Repr

/-- The global mutable state of the program: `audit_log` (timestamps
abstracted away, an entry is (user id, action)) and `data_store`. -/
structure St where
  audit : List (String × String)
  store : List (String × Record)
deriving DecidableEq, Repr

/-- A step function: payload and global state in, updated global state and
either a raised exception or an optional payload out (`none` is the Python
`None` failure marker). -/
abbrev StepFn := Payload → St → St × Except Err (Option Payload)

/-- The step registry: the insertion-ordered dict `steps` of `pipeline()`. -/
abbrev Steps := List (String × StepFn)

/-- `add_step(name)` applied to `func`: `steps[name] = func` on the
registry (replace in place if the name exists, else append). -/
def add_step (name : String) (func : StepFn) (steps : Steps) : Steps :=
  dictSet steps name func

/-- Result of draining the generator returned by `execute(data)`:
* `ok outs d s`: every step succeeded; `outs` are the yielded booleans,
  `d` the final threaded payload, `s` the final global state;
* `failed outs s`: a step returned the `None` marker; `outs` ends in `false`;
* `errored outs e s`: a step raised `e`; the exception escapes to the
  consumer after the booleans `outs` were yielded. -/
inductive ExecResult where
  | ok (outs : List Bool) (d : Payload) (s : St)
  | failed (outs : List Bool) (s : St)
  | errored (outs : List Bool) (e : Err) (s : St)
deriving DecidableEq, Repr

/-- `execute(data)` drained to exhaustion: for each registered step in
order, invoke it on the running payload; on the `None` marker yield `false`
and stop; on an exception stop with the exception; otherwise yield `true`
and continue with the returned payload. -/
def execute : Steps → Payload → St → ExecResult
  | [], d, s => .ok [] d s
  | (_, f) :: rest, d, s =>
    match f d s with
    | (s1, .error e) => .errored [] e s1
    | (s1, .ok none) => .failed [false] s1
    | (s1, .ok (some d1)) =>
      match execute rest d1 s1 with
      | .ok outs d2 s2 => .ok (true :: outs) d2 s2
      | .failed outs s2 => .failed (true :: outs) s2
      | .errored outs e s2 => .errored (true :: outs) e s2

/-- The booleans yielded by a drained run. -/
def ExecResult.outs : ExecResult → List Bool
  | .ok o _ _ => o
  | .failed o _ => o
  | .errored o _ _ => o

/-- Result of pulling at most `n` elements from the generator:
* `suspended outs d rest s`: all pulls used, generator still suspended with
  remaining steps `rest` and current payload `d` — `rest` has NOT run;
* `finished outs s`: the generator terminated (marker yielded `false`, or
  steps exhausted) within the pulls;
* `raised outs e s`: a pull raised `e` out of the generator. -/
inductive PullResult where
  | suspended (outs : List Bool) (d : Payload) (rest : Steps) (s : St)
  | finished (outs : List Bool) (s : St)
  | raised (outs : List Bool) (e : Err) (s : St)

/-- Pull at most `n` elements from the generator `execute(data)`: each pull
invokes exactly the next registered step; with no pulls left the generator
is suspended and no further step runs. -/
def pullN : Nat → Steps → Payload → St → PullResult
  | 0, steps, d, s => .suspended [] d steps s
  | _ + 1, [], _, s => .finished [] s
  | n + 1, (_, f) :: rest, d, s =>
    match f d s with
    | (s1, .error e) => .raised [] e s1
    | (s1, .ok none) => .finished [false] s1
    | (s1, .ok (some d1)) =>
      match pullN n rest d1 s1 with
      | .suspended outs d2 r2 s2 => .suspended (true :: outs) d2 r2 s2
      | .finished outs s2 => .finished (true :: outs) s2
      | .raised outs e s2 => .raised (true :: outs) e s2

/-- The booleans obtained from the pulls. -/
def PullResult.outs : PullResult → List Bool
  | .suspended o _ _ _ => o
  | .finished o _ => o
  | .raised o _ _ => o

/-- The global state after the pulls. -/
def PullResult.state : PullResult → St
  | .suspended _ _ _ s => s
  | .finished _ s => s
  | .raised _ _ s => s

/-- How a fully drained run looks to a consumer that keeps pulling: a
normal end and a marker `false` both end the generator; an exception is
re-raised at the pull. -/
def ExecResult.toPull : ExecResult → PullResult
  | .ok outs _ s => .finished outs s
  | .failed outs s => .finished outs s
  | .errored outs e s => .raised outs e s

/-- `log_action(user_id, action)`: append an entry to the audit log
(timestamp abstracted). -/
def log_action (user_id action : String) (s : St) : St :=
  { s with audit := s.audit ++ [(user_id, action)] }

/-- The initial `data_store` dict of the program. -/
def data_store : List (String × Record) :=
  [("100", [("name", .str "John Doe"), ("age", .int 30),
            ("department", .str "HR")]),
   ("101", [("name", .str "Jane Smith"), ("age", .int 28),
            ("department", .str "Engineering")])]

/-- The fixed `roles` table. -/
def roles : List (String × List (String × Bool)) :=
  [("host", [("can_delete", false), ("can_get", true)]),
   ("hr", [("can_delete", true), ("can_get", true)])]

/-- `roles.get(r, \x7b\x7d)`: the capability dict of a role, empty if the
role is unknown. -/
def roleCaps (roleName : String) : List (String × Bool) :=
  (dictGet roles roleName).getD []

/-- `roles.get(r, \x7b\x7d).get(cap, False)`: the capability query made by
the steps; `false` for an unknown role or a missing capability. -/
def capabilityGranted (roleName cap : String) : Bool :=
  (dictGet (roleCaps roleName) cap).getD false

/-- The step registered as "validation": reads `user_id`, `username`,
`password` (raising `KeyError` at the first missing key, in that order);
returns the `None` marker when the username is shorter than 3 or the
password shorter than 6; otherwise logs and returns the payload. -/
def validate_user : StepFn := fun data s =>
  match dictGet data "user_id" with
  | none => (s, .error (.keyError "user_id"))
  | some user_id =>
    match dictGet data "username" with
    | none => (s, .error (.keyError "username"))
    | some username =>
      match dictGet data "password" with
      | none => (s, .error (.keyError "password"))
      | some password =>
        if username.length < 3 || password.length < 6 then
          (s, .ok none)
        else
          (log_action user_id "Validation successful" s, .ok (some data))

/-- The step registered as "get_data": reads `user_id`, `target_id`,
`role` (raising `KeyError` at the first missing key, in that order);
returns the `None` marker when the role lacks `can_get`; otherwise looks up
the target record — a truthy (non-empty) record is logged as viewed, an
absent or empty one only prints — and returns the payload unchanged. -/
def get_data : StepFn := fun data s =>
  match dictGet data "user_id" with
  | none => (s, .error (.keyError "user_id"))
  | some user_id =>
    match dictGet data "target_id" with
    | none => (s, .error (.keyError "target_id"))
    | some target_id =>
      match dictGet data "role" with
      | none => (s, .error (.keyError "role"))
      | some roleName =>
        if !capabilityGranted roleName "can_get" then
          (s, .ok none)
        else
          match dictGet s.store target_id with
          | some record =>
            if record.isEmpty then (s, .ok (some data))
            else
              (log_action user_id ("Viewed record for user " ++ target_id) s,
               .ok (some data))
          | none => (s, .ok (some data))

/-- The step registered as "delete_data": reads `user_id`, `target_id`,
`role` (raising `KeyError` at the first missing key, in that order);
returns the `None` marker when the role lacks `can_delete`; otherwise, if a
truthy (non-empty) record is present, rebuilds it keeping exactly the keys
"name", "age", "department" (subscripting raises `KeyError` at the first of
those keys the record lacks), stores it back in place and logs; an absent
or empty record only prints.  The payload is returned unchanged. -/
def delete_data : StepFn := fun data s =>
  match dictGet data "user_id" with
  | none => (s, .error (.keyError "user_id"))
  | some user_id =>
    match dictGet data "target_id" with
    | none => (s, .error (.keyError "target_id"))
    | some target_id =>
      match dictGet data "role" with
      | none => (s, .error (.keyError "role"))
      | some roleName =>
        if !capabilityGranted roleName "can_delete" then
          (s, .ok none)
        else
          match dictGet s.store target_id with
          | some record =>
            if record.isEmpty then (s, .ok (some data))
            else
              match dictGet record "name" with
              | none => (s, .error (.keyError "name"))
              | some vn =>
                match dictGet record "age" with
                | none => (s, .error (.keyError "age"))
                | some va =>
                  match dictGet record "department" with
                  | none => (s, .error (.keyError "department"))
                  | some vd =>
                    let pruned : Record :=
                      [("name", vn), ("age", va), ("department", vd)]
                    let s1 : St := { s with store := dictSet s.store target_id pruned }
                    (log_action user_id
                      ("Deleted non-essential data for user " ++ target_id) s1,
                     .ok (some data))
          | none => (s, .ok (some data))

/-- The registry after the three `@add_step(...)` decorators ran, in module
order: "validation", "get_data", "delete_data". -/
def pipelineSteps : Steps :=
  add_step "delete_data" delete_data
    (add_step "get_data" get_data
      (add_step "validation" validate_user []))

/-- The `host_data` payload of the example execution. -/
def host_data : Payload :=
  [("user_id", "102"), ("role", "host"), ("target_id", "100"),
   ("username", "host_user"), ("password", "hostpass123")]

/-- The `hr_data` payload of the example execution. -/
def hr_data : Payload :=
  [("user_id", "103"), ("role", "hr"), ("target_id", "100"),
   ("username", "hr_user"), ("password", "hrpass123")]

/-- The global state at module start: empty audit log, initial store. -/
def initState : St :=
  { audit := [], store := data_store }

/-- Extensional equality of two Python dicts (Python `==` on dicts): the
same keys map to the same values. -/
def dictEquiv (r1 r2 : Record) : Bool :=
  r1.all (fun p => decide (dictGet r2 p.1 = dictGet r1 p.1)) &&
  r2.all (fun p => decide (dictGet r1 p.1 = dictGet r2 p.1))

/-- Prepend already-yielded booleans to the result of a later run segment;
used to state how `execute` decomposes over an append of step lists. -/
def ExecResult.prepend (outs : List Bool) : ExecResult → ExecResult
  | .ok o d s => .ok (outs ++ o) d s
  | .failed o s => .failed (outs ++ o) s
  | .errored o e s => .errored (outs ++ o) e s

/-- A generic step that succeeds and passes the payload through unchanged;
used to instantiate universally quantified theorems at concrete inputs. -/
def okStep : StepFn := fun d s => (s, .ok (some d))

/-- A generic step that returns the Python `None` failure marker. -/
def failStep : StepFn := fun _ s => (s, .ok none)

/-- A state whose store maps id "100" to an empty record; Python `{}` is
falsy, which the deletion step treats as no record found. -/
def emptyRecState : St :=
  { audit := [], store := [("100", [])] }

lemma ExecResult.prepend_nil (r : ExecResult) : ExecResult.prepend [] r = r := by
  cases r <;> simp [ExecResult.prepend]

/-- If a prefix of the registry runs with every step succeeding, running the
whole registry first replays the prefix and then continues with the rest on
the threaded payload and state. -/
lemma execute_append_ok (pre : Steps) (d : Payload) (s : St) (outs : List Bool)
    (d1 : Payload) (s1 : St) (h : execute pre d s = .ok outs d1 s1) (rest : Steps) :
    execute (pre ++ rest) d s = ExecResult.prepend outs (execute rest d1 s1) := by
  induction pre generalizing d s outs with
  | nil =>
    simp only [execute] at h
    cases h
    simp [ExecResult.prepend_nil]
  | cons hd tl ih =>
    obtain ⟨nm, f⟩ := hd
    rcases hf : f d s with ⟨s2, r⟩
    rcases r with e | od
    · simp only [execute, hf] at h
      exact absurd h (by simp)
    · rcases od with _ | d2
      · simp only [execute, hf] at h
        exact absurd h (by simp)
      · simp only [execute, hf] at h
        rcases hrec : execute tl d2 s2 with ⟨o3, d3, s3⟩ | ⟨o3, s3⟩ | ⟨o3, e3, s3⟩ <;>
          simp only [hrec] at h
        · rcases h with ⟨⟩
          have hih := ih d2 s2 o3 hrec
          simp only [List.cons_append, execute, hf, List.append_eq]
          rw [hih]
          rcases execute rest d1 s1 with ⟨o4, d4, s4⟩ | ⟨o4, s4⟩ | ⟨o4, e4, s4⟩ <;>
            simp [ExecResult.prepend]
        · exact absurd h (by simp)
        · exact absurd h (by simp)

/-- A fully successful run yields `true` once per executed step. -/
lemma execute_ok_outs (steps : Steps) (d : Payload) (s : St) (outs : List Bool)
    (d1 : Payload) (s1 : St) (h : execute steps d s = .ok outs d1 s1) :
    outs = List.replicate steps.length true := by
  induction steps generalizing d s outs with
  | nil =>
    simp only [execute] at h
    cases h
    rfl
  | cons hd tl ih =>
    obtain ⟨nm, f⟩ := hd
    rcases hf : f d s with ⟨s2, r⟩
    rcases r with e | od
    · simp only [execute, hf] at h
      exact absurd h (by simp)
    · rcases od with _ | d2
      · simp only [execute, hf] at h
        exact absurd h (by simp)
      · simp only [execute, hf] at h
        rcases hrec : execute tl d2 s2 with ⟨o3, d3, s3⟩ | ⟨o3, s3⟩ | ⟨o3, e3, s3⟩ <;>
          simp only [hrec] at h
        · rcases h with ⟨⟩
          rw [ih d2 s2 o3 hrec]
          simp [List.replicate_succ]
        · exact absurd h (by simp)
        · exact absurd h (by simp)

/-- When an exception escapes the generator, every boolean yielded before it
was `true`: an exception is never converted into a `false` element. -/
lemma execute_errored_outs (steps : Steps) (d : Payload) (s : St) (outs : List Bool)
    (e : Err) (s1 : St) (h : execute steps d s = .errored outs e s1) :
    outs = List.replicate outs.length true := by
  induction steps generalizing d s outs with
  | nil => exact absurd h (by simp [execute])
  | cons hd tl ih =>
    obtain ⟨nm, f⟩ := hd
    rcases hf : f d s with ⟨s2, r⟩
    rcases r with e2 | od
    · simp only [execute, hf] at h
      rcases h with ⟨⟩
      rfl
    · rcases od with _ | d2
      · simp only [execute, hf] at h
        exact absurd h (by simp)
      · simp only [execute, hf] at h
        rcases hrec : execute tl d2 s2 with ⟨o3, d3, s3⟩ | ⟨o3, s3⟩ | ⟨o3, e3, s3⟩ <;>
          simp only [hrec] at h
        · exact absurd h (by simp)
        · exact absurd h (by simp)
        · rcases h with ⟨⟩
          rw [ih d2 s2 o3 hrec]
          simp [List.replicate_succ]

/-- The booleans and the state obtained from `n` pulls depend only on the
first `n` registered steps: steps whose elements are never pulled are never
invoked and contribute no side effects. -/
lemma pullN_take (n : Nat) (steps : Steps) (d : Payload) (s : St) :
    (pullN n steps d s).outs = (pullN n (steps.take n) d s).outs ∧
    (pullN n steps d s).state = (pullN n (steps.take n) d s).state := by
  induction n generalizing steps d s with
  | zero => simp [pullN, PullResult.outs, PullResult.state]
  | succ n ih =>
    cases steps with
    | nil => simp [pullN]
    | cons hd tl =>
      obtain ⟨nm, f⟩ := hd
      rcases hf : f d s with ⟨s1, r⟩
      rcases r with e | od
      · simp only [List.take_succ_cons, pullN, hf]
        exact ⟨trivial, trivial⟩
      · rcases od with _ | d1
        · simp only [List.take_succ_cons, pullN, hf]
          exact ⟨trivial, trivial⟩
        · simp only [List.take_succ_cons, pullN, hf]
          obtain ⟨ho, hs⟩ := ih tl d1 s1
          rcases h1 : pullN n tl d1 s1 with ⟨o1, d2, r2, s2⟩ | ⟨o1, s2⟩ | ⟨o1, e1, s2⟩ <;>
            rcases h2 : pullN n (tl.take n) d1 s1 with
              ⟨o2, d3, r3, s3⟩ | ⟨o2, s3⟩ | ⟨o2, e2, s3⟩ <;>
            simp only [h1, h2, PullResult.outs, PullResult.state] at ho hs ⊢ <;>
            simp [ho, hs]

/-- Pulling more often than there are registered steps drains the
generator: the pulls agree with the drained-run semantics `execute`. -/
lemma pullN_eq_execute (steps : Steps) (n : Nat) (d : Payload) (s : St)
    (h : steps.length < n) :
    pullN n steps d s = (execute steps d s).toPull := by
  induction steps generalizing n d s with
  | nil =>
    cases n with
    | zero => exact absurd h (by simp)
    | succ m => simp [pullN, execute, ExecResult.toPull]
  | cons hd tl ih =>
    obtain ⟨nm, f⟩ := hd
    cases n with
    | zero => exact absurd h (by simp)
    | succ m =>
      have hm : tl.length < m := by
        simpa using h
      rcases hf : f d s with ⟨s1, r⟩
      rcases r with e | od
      · simp [pullN, execute, hf, ExecResult.toPull]
      · rcases od with _ | d1
        · simp [pullN, execute, hf, ExecResult.toPull]
        · simp only [pullN, execute, hf]
          rw [ih m d1 s1 hm]
          rcases execute tl d1 s1 with ⟨o2, d2, s2⟩ | ⟨o2, s2⟩ | ⟨o2, e2, s2⟩ <;>
            simp [ExecResult.toPull]

/-- Mapping the replace-at-key function over a dict that does not contain
the key leaves it unchanged. -/
lemma map_keep {α : Type} (l : List (String × α)) (k : String) (g : α)
    (h : ∀ p ∈ l, p.1 ≠ k) :
    l.map (fun p => if p.1 == k then (k, g) else p) = l := by
  induction l with
  | nil => rfl
  | cons a t ih =>
    simp only [List.map_cons]
    rw [if_neg, ih]
    · intro p hp
      exact h p (List.mem_cons_of_mem a hp)
    · simp only [beq_iff_eq]
      exact h a (List.mem_cons_self a t)

/-- Python `d[k] = v` on a dict without the key appends a fresh entry. -/
lemma dictSet_fresh {α : Type} (d : List (String × α)) (k : String) (v : α)
    (h : ∀ p ∈ d, p.1 ≠ k) :
    dictSet d k v = d ++ [(k, v)] := by
  unfold dictSet
  rw [if_neg]
  intro hany
  rw [List.any_eq_true] at hany
  obtain ⟨p, hp, hpk⟩ := hany
  rw [beq_iff_eq] at hpk
  exact h p hp hpk

/-- Python `d[k] = v` on a dict holding the key once replaces the value in
place, keeping the entry at its original position. -/
lemma dictSet_replace {α : Type} (pre post : List (String × α)) (k : String) (f g : α)
    (hpre : ∀ p ∈ pre, p.1 ≠ k) (hpost : ∀ p ∈ post, p.1 ≠ k) :
    dictSet (pre ++ (k, f) :: post) k g = pre ++ (k, g) :: post := by
  unfold dictSet
  rw [if_pos]
  · rw [List.map_append, map_keep pre k g hpre, List.map_cons]
    rw [if_pos (by simp), map_keep post k g hpost]
  · rw [List.any_eq_true]
    exact ⟨(k, f), by simp, by simp⟩

/-- C7: executing the registered pipeline [validation, get_data,
delete_data] as role "host" (can_get true, can_delete false) on the valid
payload `host_data` targeting the existing record "100" yields the outcome
sequence [true, true, false], appends exactly the two audit entries for the
validation and the view, and leaves the store (and so the target record)
unchanged. -/
theorem host_scenario_outcomes :
    execute pipelineSteps host_data initState =
      ExecResult.failed [true, true, false]
        { audit := [("102", "Validation successful"),
                    ("102", "Viewed record for user 100")],
          store := data_store } := by
  rfl

/-- C1: if every step of a prefix `pre` succeeds and the next registered
step returns the "no result" marker (`none`), then `execute` on the whole
registry yields exactly `pre.length` `true` values followed by a single
`false`, and the result — booleans and final state alike — is the same for
every list `post` of later steps: the steps after the failing one are never
invoked. -/
theorem execute_first_marker_short_circuits (pre : Steps) (nm : String) (f : StepFn)
    (d : Payload) (s : St) (outs : List Bool) (d1 : Payload) (s1 s2 : St)
    (hpre : execute pre d s = .ok outs d1 s1)
    (hfail : f d1 s1 = (s2, Except.ok none)) :
    ∀ post : Steps,
      execute (pre ++ (nm, f) :: post) d s =
        ExecResult.failed (List.replicate pre.length true ++ [false]) s2 := by
  intro post
  rw [execute_append_ok pre d s outs d1 s1 hpre ((nm, f) :: post)]
  have hstep : execute ((nm, f) :: post) d1 s1 = ExecResult.failed [false] s2 := by
    simp [execute, hfail]
  rw [hstep]
  rw [execute_ok_outs pre d s outs d1 s1 hpre]
  simp [ExecResult.prepend]

/-- Witness for C1: a concrete three-step registry whose second step fails;
two different tails give the same two-element outcome [true, false]. -/
theorem execute_first_marker_short_circuits_witness :
    execute ([("a", okStep)] ++ ("b", failStep) :: [("c", okStep)]) [] initState =
      ExecResult.failed (List.replicate 1 true ++ [false]) initState ∧
    execute ([("a", okStep)] ++ ("b", failStep) :: []) [] initState =
      ExecResult.failed (List.replicate 1 true ++ [false]) initState :=
  ⟨execute_first_marker_short_circuits [("a", okStep)] "b" failStep [] initState
      [true] [] initState initState rfl rfl [("c", okStep)],
   execute_first_marker_short_circuits [("a", okStep)] "b" failStep [] initState
      [true] [] initState initState rfl rfl []⟩

/-- C2: with an empty registry `execute` yields the empty outcome sequence,
and whenever a run completes with no step returning the "no result" marker
(every step returns a payload), the outcome sequence is exactly one `true`
per registered step, in registration order. -/
theorem execute_no_failure_all_true (steps : Steps) (d : Payload) (s : St) :
    execute ([] : Steps) d s = ExecResult.ok [] d s ∧
    ∀ outs d1 s1, execute steps d s = ExecResult.ok outs d1 s1 →
      outs = List.replicate steps.length true := by
  exact ⟨rfl, fun outs d1 s1 h => execute_ok_outs steps d s outs d1 s1 h⟩

/-- Witness for C2: a concrete two-step registry with no failures yields
[true, true], and the empty registry yields []. -/
theorem execute_no_failure_all_true_witness :
    execute ([] : Steps) [] initState = ExecResult.ok [] [] initState ∧
    [true, true] = List.replicate ([("a", okStep), ("b", okStep)] : Steps).length true :=
  ⟨(execute_no_failure_all_true [] [] initState).1,
   (execute_no_failure_all_true [("a", okStep), ("b", okStep)] [] initState).2
      [true, true] [] initState rfl⟩

/-- C3: registering `f` and then `g` under the same name, with any other
(distinctly named) steps registered before the first registration and
between the two, leaves the registry with exactly `g` at the position of
the FIRST registration of the name; consequently any later `execute`
invokes `g` (never `f`) at that position.  The embedding of `add_step` is a
total function, so no error is raised on the colliding registration. -/
theorem add_step_last_registration_wins (pre post : Steps) (name : String)
    (f g : StepFn) (hpre : ∀ p ∈ pre, p.1 ≠ name) (hpost : ∀ p ∈ post, p.1 ≠ name) :
    add_step name g (add_step name f pre ++ post) = pre ++ (name, g) :: post ∧
    ∀ d s, execute (add_step name g (add_step name f pre ++ post)) d s =
      execute (pre ++ (name, g) :: post) d s := by
  have h1 : add_step name f pre = pre ++ [(name, f)] :=
    dictSet_fresh pre name f hpre
  have h2 : add_step name g (add_step name f pre ++ post) = pre ++ (name, g) :: post := by
    rw [h1, List.append_assoc, List.singleton_append]
    exact dictSet_replace pre post name f g hpre hpost
  exact ⟨h2, fun d s => by rw [h2]⟩

/-- Witness for C3: registering `okStep` then `failStep` under the name "b",
with "a" registered before and "c" in between, leaves exactly `failStep` at
the position of the first "b" registration. -/
theorem add_step_last_registration_wins_witness :
    add_step "b" failStep (add_step "b" okStep [("a", okStep)] ++ [("c", okStep)]) =
      [("a", okStep)] ++ ("b", failStep) :: [("c", okStep)] ∧
    execute (add_step "b" failStep
        (add_step "b" okStep [("a", okStep)] ++ [("c", okStep)])) [] initState =
      execute ([("a", okStep)] ++ ("b", failStep) :: [("c", okStep)]) [] initState :=
  ⟨(add_step_last_registration_wins [("a", okStep)] [("c", okStep)] "b" okStep failStep
      (by intro p hp; rw [List.mem_singleton] at hp; subst hp; decide)
      (by intro p hp; rw [List.mem_singleton] at hp; subst hp; decide)).1,
   (add_step_last_registration_wins [("a", okStep)] [("c", okStep)] "b" okStep failStep
      (by intro p hp; rw [List.mem_singleton] at hp; subst hp; decide)
      (by intro p hp; rw [List.mem_singleton] at hp; subst hp; decide)).2 [] initState⟩

/-- C4: for a payload carrying the `user_id`, `target_id` and `role` fields,
if the role is absent from the `roles` table then every capability query
answers `false`; and whenever the queried capability is `false` — absent
role or role lacking it — the retrieval step (capability `can_get`) and the
deletion step (capability `can_delete`) return the "no result" marker with
the state untouched, so the pipeline halts there with a `false` outcome. -/
theorem missing_capability_denies (d : Payload) (s : St) (u t r : String)
    (hu : dictGet d "user_id" = some u)
    (ht : dictGet d "target_id" = some t)
    (hr : dictGet d "role" = some r) :
    (dictGet roles r = none → ∀ cap, capabilityGranted r cap = false) ∧
    (capabilityGranted r "can_get" = false →
      get_data d s = (s, Except.ok none)) ∧
    (capabilityGranted r "can_delete" = false →
      delete_data d s = (s, Except.ok none)) := by
  refine ⟨?_, ?_, ?_⟩
  · intro habs cap
    unfold capabilityGranted roleCaps
    rw [habs]
    rfl
  · intro hcap
    simp [get_data, hu, ht, hr, hcap]
  · intro hcap
    simp [delete_data, hu, ht, hr, hcap]

/-- Witness for C4: the role "guest" is absent from the table, so all its
capability queries are `false` and both steps fail on a payload using it. -/
theorem missing_capability_denies_witness :
    capabilityGranted "guest" "can_get" = false ∧
    capabilityGranted "guest" "can_delete" = false ∧
    get_data [("user_id", "1"), ("target_id", "100"), ("role", "guest")] initState =
      (initState, Except.ok none) ∧
    delete_data [("user_id", "1"), ("target_id", "100"), ("role", "guest")] initState =
      (initState, Except.ok none) :=
  ⟨(missing_capability_denies
      [("user_id", "1"), ("target_id", "100"), ("role", "guest")] initState
      "1" "100" "guest" rfl rfl rfl).1 rfl "can_get",
   (missing_capability_denies
      [("user_id", "1"), ("target_id", "100"), ("role", "guest")] initState
      "1" "100" "guest" rfl rfl rfl).1 rfl "can_delete",
   (missing_capability_denies
      [("user_id", "1"), ("target_id", "100"), ("role", "guest")] initState
      "1" "100" "guest" rfl rfl rfl).2.1 rfl,
   (missing_capability_denies
      [("user_id", "1"), ("target_id", "100"), ("role", "guest")] initState
      "1" "100" "guest" rfl rfl rfl).2.2 rfl⟩

/-- C5: for a payload carrying `user_id`, `username` and `password`,
`validate_user` returns the "no result" marker exactly when the username is
shorter than 3 or the password shorter than 6 characters; in the failing
case the state (in particular the audit log) is unchanged, and in the
succeeding case the payload is returned unchanged and exactly one audit
entry for the acting user is appended. -/
theorem validate_user_marker_iff (d : Payload) (s : St) (u un pw : String)
    (hu : dictGet d "user_id" = some u)
    (hn : dictGet d "username" = some un)
    (hp : dictGet d "password" = some pw) :
    ((un.length < 3 ∨ pw.length < 6) →
      validate_user d s = (s, Except.ok none)) ∧
    (¬ (un.length < 3 ∨ pw.length < 6) →
      validate_user d s =
        ({ audit := s.audit ++ [(u, "Validation successful")], store := s.store },
         Except.ok (some d))) ∧
    ((validate_user d s).2 = Except.ok none ↔ (un.length < 3 ∨ pw.length < 6)) := by
  have hfail : (un.length < 3 ∨ pw.length < 6) →
      validate_user d s = (s, Except.ok none) := by
    intro h
    have hb : (decide (un.length < 3) || decide (pw.length < 6)) = true := by
      rcases h with h | h <;> simp [h]
    simp [validate_user, hu, hn, hp, hb]
  have hsucc : ¬ (un.length < 3 ∨ pw.length < 6) →
      validate_user d s =
        ({ audit := s.audit ++ [(u, "Validation successful")], store := s.store },
         Except.ok (some d)) := by
    intro h
    push_neg at h
    have hb : (decide (un.length < 3) || decide (pw.length < 6)) = false := by
      rw [decide_eq_false (by omega), decide_eq_false (by omega)]
      rfl
    simp [validate_user, hu, hn, hp, hb, log_action]
  refine ⟨hfail, hsucc, ?_⟩
  by_cases hc : un.length < 3 ∨ pw.length < 6
  · rw [hfail hc]
    simp [hc]
  · rw [hsucc hc]
    simp [hc]

/-- Witness for C5: a 2-character username fails with no audit entry; the
valid `host_data` credentials succeed and append exactly one entry. -/
theorem validate_user_marker_iff_witness :
    validate_user [("user_id", "1"), ("username", "ab"), ("password", "longpass")]
        initState = (initState, Except.ok none) ∧
    validate_user host_data initState =
      ({ audit := [("102", "Validation successful")], store := initState.store },
       Except.ok (some host_data)) :=
  ⟨(validate_user_marker_iff
      [("user_id", "1"), ("username", "ab"), ("password", "longpass")] initState
      "1" "ab" "longpass" rfl rfl rfl).1 (Or.inl (by decide)),
   (validate_user_marker_iff host_data initState
      "102" "host_user" "hostpass123" rfl rfl rfl).2.1 (by decide)⟩

/-- C6: for a payload carrying `user_id`, `target_id` and `role` whose
target id is absent from the record store, the retrieval step (given the
`can_get` capability) and the deletion step (given the `can_delete`
capability) each return the payload unchanged — the outcome is `true`, not
a failure — with the state (audit log and store) untouched and no exception
raised. -/
theorem absent_target_not_failure (d : Payload) (s : St) (u t r : String)
    (hu : dictGet d "user_id" = some u)
    (ht : dictGet d "target_id" = some t)
    (hr : dictGet d "role" = some r)
    (habs : dictGet s.store t = none) :
    (capabilityGranted r "can_get" = true →
      get_data d s = (s, Except.ok (some d))) ∧
    (capabilityGranted r "can_delete" = true →
      delete_data d s = (s, Except.ok (some d))) := by
  constructor
  · intro hcap
    simp [get_data, hu, ht, hr, hcap, habs]
  · intro hcap
    simp [delete_data, hu, ht, hr, hcap, habs]

/-- Witness for C6: target id "999" is absent from the initial store; the
role "hr" has both capabilities and both steps succeed unchanged. -/
theorem absent_target_not_failure_witness :
    get_data [("user_id", "103"), ("target_id", "999"), ("role", "hr")] initState =
      (initState, Except.ok
        (some [("user_id", "103"), ("target_id", "999"), ("role", "hr")])) ∧
    delete_data [("user_id", "103"), ("target_id", "999"), ("role", "hr")] initState =
      (initState, Except.ok
        (some [("user_id", "103"), ("target_id", "999"), ("role", "hr")])) :=
  ⟨(absent_target_not_failure
      [("user_id", "103"), ("target_id", "999"), ("role", "hr")] initState
      "103" "999" "hr" rfl rfl rfl rfl).1 rfl,
   (absent_target_not_failure
      [("user_id", "103"), ("target_id", "999"), ("role", "hr")] initState
      "103" "999" "hr" rfl rfl rfl rfl).2 rfl⟩

/-- C8: the outcome sequence is lazy.  Zero pulls leave the generator
suspended with no step invoked and the state untouched; pulling exactly one
element of a non-empty registry leaves the state produced by the first step
alone, and the pulled booleans and state are the same for every tail of
later steps; in general the booleans and state after `n` pulls depend only
on the first `n` registered steps; and pulling more often than there are
steps reproduces the drained-run semantics `execute`. -/
theorem execute_lazy_consumption (nm : String) (f : StepFn)
    (rest rest2 steps : Steps) (d : Payload) (s : St) (n : Nat) :
    pullN 0 steps d s = PullResult.suspended [] d steps s ∧
    (pullN 1 ((nm, f) :: rest) d s).state = (f d s).1 ∧
    ((pullN 1 ((nm, f) :: rest) d s).outs = (pullN 1 ((nm, f) :: rest2) d s).outs ∧
     (pullN 1 ((nm, f) :: rest) d s).state = (pullN 1 ((nm, f) :: rest2) d s).state) ∧
    ((pullN n steps d s).outs = (pullN n (steps.take n) d s).outs ∧
     (pullN n steps d s).state = (pullN n (steps.take n) d s).state) ∧
    (steps.length < n → pullN n steps d s = (execute steps d s).toPull) := by
  refine ⟨rfl, ?_, ?_, pullN_take n steps d s,
    fun h => pullN_eq_execute steps n d s h⟩
  · rcases hf : f d s with ⟨s1, r⟩
    rcases r with e | od
    · simp [pullN, hf, PullResult.state]
    · rcases od with _ | d1 <;> simp [pullN, hf, PullResult.state]
  · have h1 := pullN_take 1 ((nm, f) :: rest) d s
    have h2 := pullN_take 1 ((nm, f) :: rest2) d s
    simp only [List.take_succ_cons, List.take_zero] at h1 h2
    exact ⟨h1.1.trans h2.1.symm, h1.2.trans h2.2.symm⟩

/-- Witness for C8: four pulls (more than the three registered steps) on
the actual pipeline drain the generator and agree with `execute`. -/
theorem execute_lazy_consumption_witness :
    pullN 4 pipelineSteps host_data initState =
      (execute pipelineSteps host_data initState).toPull :=
  (execute_lazy_consumption "a" okStep [] [] pipelineSteps host_data
      initState 4).2.2.2.2 (by decide)

/-- C9: the engine catches no exceptions.  On any payload missing the
"user_id" key, the first registered step (`validate_user`) raises
`KeyError`, which escapes the outcome sequence with no boolean — neither
`true` nor `false` — yielded for that step and the state untouched; and in
general every boolean yielded before an escaping exception is `true`:
`false` signals only a step returning the marker, never a raised
exception. -/
theorem pipeline_uncaught_keyerror (d : Payload) (s : St) (steps : Steps)
    (outs : List Bool) (e : Err) (s1 : St)
    (h : dictGet d "user_id" = none) :
    execute pipelineSteps d s = ExecResult.errored [] (Err.keyError "user_id") s ∧
    (execute steps d s = ExecResult.errored outs e s1 →
      outs = List.replicate outs.length true) := by
  constructor
  · have hps : pipelineSteps =
        [("validation", validate_user), ("get_data", get_data),
         ("delete_data", delete_data)] := rfl
    rw [hps]
    simp [execute, validate_user, h]
  · exact fun hh => execute_errored_outs steps d s outs e s1 hh

/-- Witness for C9: a payload holding only a username makes the pipeline
raise `KeyError` for "user_id" before yielding any element. -/
theorem pipeline_uncaught_keyerror_witness :
    execute pipelineSteps [("username", "abc")] initState =
      ExecResult.errored [] (Err.keyError "user_id") initState :=
  (pipeline_uncaught_keyerror [("username", "abc")] initState []
      [] (Err.keyError "user_id") initState rfl).1

/-- Counterexample to C10 as stated: the empty record `\x7b\x7d` lacks the
field "name", the role "hr" grants `can_delete`, and the target id "100"
maps to that record — yet `delete_data` raises nothing and returns the
payload, because Python `if record:` treats the empty dict as falsy and
takes the "no record found" branch. -/
theorem delete_data_empty_record_no_keyerror :
    capabilityGranted "hr" "can_delete" = true ∧
    dictGet emptyRecState.store "100" = some [] ∧
    dictGet ([] : Record) "name" = none ∧
    delete_data hr_data emptyRecState = (emptyRecState, Except.ok (some hr_data)) :=
  ⟨rfl, rfl, rfl, rfl⟩

/-- C10 (amended with non-emptiness, the truthiness condition the code
actually tests): for a payload carrying `user_id`, `target_id` and `role`
whose role grants `can_delete` and whose target id maps to a NON-EMPTY
record, if the record lacks any of "name", "age", "department" then
`delete_data` raises `KeyError` (for a key the record indeed lacks) with
the state untouched, instead of returning the payload or the marker; and
when every key of the record is among those three and all three are
present, the stored pruned record is extensionally equal to the prior
record. -/
theorem delete_data_missing_field_keyerror (d : Payload) (s : St)
    (u t r : String) (rec : Record)
    (hu : dictGet d "user_id" = some u)
    (ht : dictGet d "target_id" = some t)
    (hr : dictGet d "role" = some r)
    (hcap : capabilityGranted r "can_delete" = true)
    (hrec : dictGet s.store t = some rec)
    (hne : rec.isEmpty = false) :
    ((dictGet rec "name" = none ∨ dictGet rec "age" = none ∨
        dictGet rec "department" = none) →
      ∃ k, delete_data d s = (s, Except.error (Err.keyError k)) ∧
        dictGet rec k = none) ∧
    (∀ vn va vd, dictGet rec "name" = some vn → dictGet rec "age" = some va →
      dictGet rec "department" = some vd →
      rec.all (fun p => p.1 == "name" || p.1 == "age" || p.1 == "department") = true →
      delete_data d s =
        (log_action u ("Deleted non-essential data for user " ++ t)
          { audit := s.audit,
            store := dictSet s.store t [("name", vn), ("age", va), ("department", vd)] },
         Except.ok (some d)) ∧
      dictEquiv [("name", vn), ("age", va), ("department", vd)] rec = true) := by
  constructor
  · intro hmiss
    rcases hname : dictGet rec "name" with _ | vn
    · exact ⟨"name",
        by simp [delete_data, hu, ht, hr, hcap, hrec, hne, hname], hname⟩
    · rcases hage : dictGet rec "age" with _ | va
      · exact ⟨"age",
          by simp [delete_data, hu, ht, hr, hcap, hrec, hne, hname, hage], hage⟩
      · rcases hdep : dictGet rec "department" with _ | vd
        · exact ⟨"department",
            by simp [delete_data, hu, ht, hr, hcap, hrec, hne, hname, hage, hdep],
            hdep⟩
        · rcases hmiss with h | h | h <;> simp_all
  · intro vn va vd hname hage hdep hall
    have e1 : dictGet ([("name", vn), ("age", va), ("department", vd)] : Record)
        "name" = some vn := rfl
    have e2 : dictGet ([("name", vn), ("age", va), ("department", vd)] : Record)
        "age" = some va := rfl
    have e3 : dictGet ([("name", vn), ("age", va), ("department", vd)] : Record)
        "department" = some vd := rfl
    constructor
    · simp [delete_data, hu, ht, hr, hcap, hrec, hne, hname, hage, hdep, log_action]
    · unfold dictEquiv
      rw [Bool.and_eq_true]
      constructor
      · simp only [List.all_cons, List.all_nil, Bool.and_true, Bool.and_eq_true]
        refine ⟨?_, ?_, ?_⟩ <;> simp [e1, e2, e3, hname, hage, hdep]
      · rw [List.all_eq_true] at hall ⊢
        intro p hp
        have hkey := hall p hp
        simp only [Bool.or_eq_true, beq_iff_eq] at hkey
        rcases hkey with (h | h) | h <;> simp [h, e1, e2, e3, hname, hage, hdep]

/-- Witness for C10 (amended): a non-empty record lacking "age" makes
`delete_data` raise; the complete record "100" of the initial store is
pruned to an extensionally equal record. -/
theorem delete_data_missing_field_keyerror_witness :
    (∃ k, delete_data hr_data
        { audit := [], store := [("100", [("name", Value.str "x")])] } =
        ({ audit := [], store := [("100", [("name", Value.str "x")])] },
         Except.error (Err.keyError k)) ∧
      dictGet ([("name", Value.str "x")] : Record) k = none) ∧
    (delete_data hr_data initState =
      (log_action "103" ("Deleted non-essential data for user " ++ "100")
        { audit := ([] : List (String × String)),
          store := dictSet data_store "100"
            [("name", Value.str "John Doe"), ("age", Value.int 30),
             ("department", Value.str "HR")] },
       Except.ok (some hr_data)) ∧
    dictEquiv [("name", Value.str "John Doe"), ("age", Value.int 30),
        ("department", Value.str "HR")]
      [("name", Value.str "John Doe"), ("age", Value.int 30),
       ("department", Value.str "HR")] = true) :=
  ⟨(delete_data_missing_field_keyerror hr_data
      { audit := [], store := [("100", [("name", Value.str "x")])] }
      "103" "100" "hr" [("name", Value.str "x")]
      rfl rfl rfl rfl rfl rfl).1 (Or.inr (Or.inl rfl)),
   (delete_data_missing_field_keyerror hr_data initState
      "103" "100" "hr"
      [("name", Value.str "John Doe"), ("age", Value.int 30),
       ("department", Value.str "HR")]
      rfl rfl rfl rfl rfl rfl).2
      (Value.str "John Doe") (Value.int 30) (Value.str "HR")
      rfl rfl rfl rfl⟩

end ProjectAuth
